import Mathlib

/-!
Verification development for the brawlhalla-power-editor repository.

The TypeScript sources are shallowly embedded: JavaScript strings are Lean
`String`s, `null`/`undefined` string fields are `Option String` (`none` for
both), arrays are `List`s, and the relevant functions of
`src/types/VisualizerData.ts`, `src/types/Hitbox.ts` (shipped inside
`src/types/ActiveInput.ts`), `src/pages/PowerEditor.tsx`,
`src/components/PowerEditor/PowerVisualizer.tsx` and
`src/components/PowerEditor/PowerList.tsx` are translated into executable
Lean definitions.  JavaScript `String.prototype.split`, `trim`,
`toLowerCase`/`toUpperCase` and `Number` coercion are reimplemented here by
structural recursion over `List Char` so that every definition reduces
inside the kernel; `Number` is modelled on integer literals (the frame and
damage fields this code consumes are integer-valued), with empty and
non-numeric text coercing to `0` exactly as `Number(x) || 0` does.
-/

/-- JavaScript single-character `split`: `splitChar c l` cuts `l` at every
occurrence of `c`; like `"a,b".split(",")`, the result always has
`count c l + 1` pieces, so the empty string splits to `[""]`. -/
def splitChar (c : Char) : List Char → List (List Char)
  | [] => [[]]
  | x :: xs =>
    if x = c then [] :: splitChar c xs
    else
      match splitChar c xs with
      | [] => [[x]]
      | y :: ys => (x :: y) :: ys

/-- Split of a Lean string at a single-character delimiter, with JavaScript
`split` semantics. -/
def jsSplit (s : String) (c : Char) : List String :=
  (splitChar c s.data).map String.mk

/-- ASCII lower-casing of a string, the fragment of JavaScript
`toLowerCase` exercised by the editor's name data. -/
def jsToLower (s : String) : String :=
  String.mk (s.data.map Char.toLower)

/-- ASCII upper-casing of a string, the fragment of JavaScript
`toUpperCase` exercised by the direction tokens. -/
def jsToUpper (s : String) : String :=
  String.mk (s.data.map Char.toUpper)

/-- Whitespace predicate used by the model of JavaScript `trim`. -/
def isJsSpace (c : Char) : Bool :=
  c = ' ' || c = '\t' || c = '\n' || c = '\r'

/-- JavaScript `String.prototype.trim` on ASCII whitespace. -/
def jsTrim (s : String) : String :=
  String.mk (((s.data.dropWhile isJsSpace).reverse.dropWhile isJsSpace).reverse)

/-- Digit-sequence parser: `some n` when the list is a non-empty run of
decimal digits. -/
def parseDigits : List Char → Option Nat
  | [] => none
  | [c] => if c.isDigit then some (c.toNat - '0'.toNat) else none
  | c :: rest =>
    if c.isDigit then
      match parseDigits rest with
      | some n => some ((c.toNat - '0'.toNat) * 10 ^ rest.length + n)
      | none => none
    else none

/-- Integer-literal parser with an optional leading minus sign. -/
def parseIntChars : List Char → Option Int
  | '-' :: rest => (parseDigits rest).map (fun n => -(n : Int))
  | l => (parseDigits l).map Int.ofNat

/-- Model of the JavaScript coercion `Number(s) || 0` on integer literals:
whitespace is trimmed, the empty string and non-numeric text both give `0`
(`Number("")` is `0`, `Number(junk)` is `NaN` and `NaN || 0` is `0`). -/
def jsNumberOr0 (s : String) : Int :=
  let t := jsTrim s
  if t.data.isEmpty then 0
  else
    match parseIntChars t.data with
    | some n => n
    | none => 0

/-- Truthiness of a JavaScript string value: `null`/`undefined` and the
empty string are falsy, every other string is truthy. -/
def strTruthy : Option String → Bool
  | none => false
  | some s => !s.isEmpty

/-- JavaScript `x || undefined` on a string value: the empty string is
collapsed to `undefined` (the editor uses this when feeding raw combo
fields to the resolvers). -/
def nonEmptyOpt : Option String → Option String
  | none => none
  | some s => if s.isEmpty then none else some s

/-- Power record, from `src/types/Power.ts` (the type file itself ships
only as its callers here; every field read by the embedded code is an
optional string column of the CSV row, which is exactly how the callers
treat it).  Only the structurally significant fields consumed by the
embedded functions are listed. -/
structure Power where
  power_id : Option String := none
  power_name : Option String := none
  parent_item : Option String := none
  combo_name : Option String := none
  combo_override_if_hit : Option String := none
  combo_override_if_release : Option String := none
  combo_override_if_wall : Option String := none
  combo_override_if_button : Option String := none
  combo_override_if_dir : Option String := none
  combo_override_if_interrupt : Option String := none
  cast_time : Option String := none
  cast_impulse_x : Option String := none
  cast_impulse_y : Option String := none
  fire_impulse_x : Option String := none
  fire_impulse_y : Option String := none
  base_damage : Option String := none
  variable_impulse : Option String := none
  fixed_impulse : Option String := none
  impulse_offset_x : Option String := none
  impulse_offset_y : Option String := none
  aoe_radius_x : Option String := none
  aoe_radius_y : Option String := none
  center_offset_x : Option String := none
  center_offset_y : Option String := none
deriving DecidableEq, Repr

/-- Hitbox, from `src/types/Hitbox.ts`: four parallel sequences where
index `i` across all four describes one hitbox shape within one Cast. -/
structure Hitbox where
  aoe_radius_x : List String
  aoe_radius_y : List String
  center_offset_x : List String
  center_offset_y : List String
deriving DecidableEq, Repr

/-- Decoded cast timing `{startup, active}` built by `getVisualizerData`. -/
structure CastTime where
  startup : Int
  active : Int
deriving DecidableEq, Repr

/-- Cast, from `src/types/Cast.ts` as populated by `getVisualizerData`. -/
structure Cast where
  cast_time : Option CastTime
  cast_impulse_x : Option String
  cast_impulse_y : Option String
  fire_impulse_x : Option String
  fire_impulse_y : Option String
  base_damage : Option String
  variable_impulse : Option String
  fixed_impulse : Option String
  impulse_offset_x : Option String
  impulse_offset_y : Option String
  hitboxes : Option Hitbox
deriving DecidableEq, Repr

/-- The guard `rx ? rx.split(",").map(s => s.split("&")) : []` of
`parseHitboxes`: a null, undefined or empty (falsy) field yields `[]`. -/
def splitHitboxField : Option String → List (List String)
  | none => []
  | some s => if s.isEmpty then [] else (jsSplit s ',').map (fun t => jsSplit t '&')

/-- Translation of `parseHitboxes` (src/types/Hitbox.ts): comma-separated
groups, each ampersand-split, padded to the longest of the four fields
with `partsX[i] || []` defaulting missing groups to the empty list. -/
def parseHitboxes (rx ry cx cy : Option String) : List Hitbox :=
  let partsRx := splitHitboxField rx
  let partsRy := splitHitboxField ry
  let partsCx := splitHitboxField cx
  let partsCy := splitHitboxField cy
  let length := max (max partsRx.length partsRy.length) (max partsCx.length partsCy.length)
  (List.range length).map (fun i =>
    { aoe_radius_x := (partsRx.get? i).getD []
      aoe_radius_y := (partsRy.get? i).getD []
      center_offset_x := (partsCx.get? i).getD []
      center_offset_y := (partsCy.get? i).getD [] })

/-- The pattern `power.field?.split(",") || []` of `getVisualizerData`:
optional chaining makes a null/undefined field yield `[]`, while any
present string (including the empty one) is comma-split. -/
def optSplitComma : Option String → List String
  | none => []
  | some s => jsSplit s ','

/-- Array access `arr[i] || undefined`: a missing or empty entry becomes
`undefined`. -/
def getNonEmpty (l : List String) (i : Nat) : Option String :=
  match l.get? i with
  | none => none
  | some s => if s.isEmpty then none else some s

/-- Decoding of one raw cast-time entry by `getVisualizerData`:
`castTimes[i]?.split("@")[0].split(":")` then
`{startup: Number(p[0]) || 0, active: (Number(p[1]) || 0) + 1}`; a falsy
(missing or empty) entry produces `undefined` instead. -/
def decodeCastTimeEntry (l : List String) (i : Nat) : Option CastTime :=
  match l.get? i with
  | none => none
  | some s =>
    if s.isEmpty then none
    else
      let castTimeSplit := jsSplit ((jsSplit s '@').headD "") ':'
      some
        { startup := jsNumberOr0 (castTimeSplit.headD "")
          active := jsNumberOr0 ((castTimeSplit.get? 1).getD "") + 1 }

/-- Visualizer output `{casts, error?}` of `getVisualizerData`. -/
structure VisualizerData where
  casts : List Cast
  error : Option String
deriving DecidableEq, Repr

/-- Number of casts derived in `getVisualizerData`: the maximum length of
the ten comma-split scalar sequences and the hitbox sequence. -/
def visualizerLength (p : Power) : Nat :=
  max (max (max (optSplitComma p.cast_time).length
                (optSplitComma p.cast_impulse_x).length)
           (max (optSplitComma p.cast_impulse_y).length
                (optSplitComma p.fire_impulse_x).length))
      (max (max (max (optSplitComma p.fire_impulse_y).length
                     (optSplitComma p.base_damage).length)
                (max (optSplitComma p.variable_impulse).length
                     (optSplitComma p.fixed_impulse).length))
           (max (max (optSplitComma p.impulse_offset_x).length
                     (optSplitComma p.impulse_offset_y).length)
                (parseHitboxes p.aoe_radius_x p.aoe_radius_y
                   p.center_offset_x p.center_offset_y).length))

/-- The body of the cast-building loop of `getVisualizerData`
(src/types/VisualizerData.ts), producing the Cast at loop index `i`. -/
def buildCast (p : Power) (i : Nat) : Cast :=
  { cast_time := decodeCastTimeEntry (optSplitComma p.cast_time) i
    cast_impulse_x := getNonEmpty (optSplitComma p.cast_impulse_x) i
    cast_impulse_y := getNonEmpty (optSplitComma p.cast_impulse_y) i
    fire_impulse_x := getNonEmpty (optSplitComma p.fire_impulse_x) i
    fire_impulse_y := getNonEmpty (optSplitComma p.fire_impulse_y) i
    base_damage := getNonEmpty (optSplitComma p.base_damage) i
    variable_impulse := getNonEmpty (optSplitComma p.variable_impulse) i
    fixed_impulse := getNonEmpty (optSplitComma p.fixed_impulse) i
    impulse_offset_x := getNonEmpty (optSplitComma p.impulse_offset_x) i
    impulse_offset_y := getNonEmpty (optSplitComma p.impulse_offset_y) i
    hitboxes := (parseHitboxes p.aoe_radius_x p.aoe_radius_y
      p.center_offset_x p.center_offset_y).get? i }

/-- Translation of `getVisualizerData` (src/types/VisualizerData.ts).  The
`Option Power` argument captures the JavaScript null check `if (!power)`,
which yields an empty cast list with the "Undefined power" error marker.
The loop `for (let i = 0; i < length; i++) casts.push(...)` is the map of
`buildCast` over the index range. -/
def getVisualizerData (power : Option Power) : VisualizerData :=
  match power with
  | none => { casts := [], error := some "Undefined power" }
  | some p =>
    { casts := (List.range (visualizerLength p)).map (buildCast p), error := none }


/-- Translation of `getTotalFramesForCast` (PowerVisualizer.tsx): frames in
one cast are `startup + active`, except that `startup > 0 && active === 1`
collapses to a single frame. -/
def getTotalFramesForCast (casts : List Cast) (castIndex : Nat) : Int :=
  let startup := (((casts.get? castIndex).bind Cast.cast_time).map CastTime.startup).getD 0
  let active := (((casts.get? castIndex).bind Cast.cast_time).map CastTime.active).getD 0
  if startup > 0 && active = 1 then 1
  else startup + active

/-- Translation of the `base_damage` branch of `getCastDataWithFallback`
(PowerVisualizer.tsx): a cast whose own `base_damage` is empty or absent
falls back to cast 0's value, and finally to the literal "0". -/
def fallbackBaseDamage (casts : List Cast) (currentIndex : Nat) : String :=
  let cur := ((casts.get? currentIndex).bind Cast.base_damage).getD ""
  if cur.length > 0 then cur
  else
    match (casts.get? 0).bind Cast.base_damage with
    | some s => if s.isEmpty then "0" else s
    | none => "0"

/-- Hitbox visibility predicate of the render guard in PowerVisualizer.tsx
(lines 298-318): hitboxes for the current cast are rendered only when the
cast's raw `base_damage` is not the literal "0", the cast has a decoded
`cast_time`, and the frame within the cast lies in the visibility window
(frame 0 when `startup > 0 && active === 1`, otherwise
`startup <= frame < startup + active`). -/
def hitboxVisible (casts : List Cast) (castIndex : Nat) (frameWithinCast : Int) : Bool :=
  match casts.get? castIndex with
  | none => false
  | some c =>
    if c.base_damage = some "0" then false
    else
      match c.cast_time with
      | none => false
      | some ct =>
        let startup := ct.startup
        let active := ct.active
        if startup > 0 && active = 1 then frameWithinCast = 0
        else decide (startup ≤ frameWithinCast) && decide (frameWithinCast < startup + active)


/-- Translation of `getHitboxDataWithFallback` (PowerVisualizer.tsx): each
of the four geometry sequences falls back to cast 0's sequence when the
current cast's sequence is empty or absent. -/
def getHitboxDataWithFallback (casts : List Cast) (currentIndex : Nat) : Hitbox :=
  let currentHitbox := (casts.get? currentIndex).bind Cast.hitboxes
  let firstHitbox := (casts.get? 0).bind Cast.hitboxes
  let pick (f : Hitbox → List String) : List String :=
    if ((currentHitbox.map f).getD []).length > 0 then (currentHitbox.map f).getD []
    else (firstHitbox.map f).getD []
  { aoe_radius_x := pick Hitbox.aoe_radius_x
    aoe_radius_y := pick Hitbox.aoe_radius_y
    center_offset_x := pick Hitbox.center_offset_x
    center_offset_y := pick Hitbox.center_offset_y }

/-- Modelled from the spec: the file `src/enums/Direction.ts` is not part
of the shipped sources (only its callers are).  Section 2 of the spec
describes the Direction Lookup as a small closed vocabulary of direction
tokens ("up, down, left, right, neutral, up-left, ...") mapped to a
canonical enumerated value. -/
inductive Direction where
  | up | down | left | right | neutral
  | upLeft | upRight | downLeft | downRight
deriving DecidableEq, Repr

/-- Modelled from the spec: the TypeScript enum member access
`Direction[directionKey as keyof typeof Direction]` on an upper-cased
token, returning the canonical value for a known token and `undefined`
(here `none`) for a token outside the closed vocabulary; the enum values
are truthy strings, so the `if (!direction)` guards in the callers drop
exactly the unresolvable tokens. -/
def directionLookup (key : String) : Option Direction :=
  if key = "UP" then some .up
  else if key = "DOWN" then some .down
  else if key = "LEFT" then some .left
  else if key = "RIGHT" then some .right
  else if key = "NEUTRAL" then some .neutral
  else if key = "UPLEFT" then some .upLeft
  else if key = "UPRIGHT" then some .upRight
  else if key = "DOWNLEFT" then some .downLeft
  else if key = "DOWNRIGHT" then some .downRight
  else none

/-- ActiveInput, from `src/types/ActiveInput.ts`: one resolved
`(direction, target power)` pair of the directional combo field. -/
structure ActiveInput where
  direction : Direction
  combo : Power
deriving DecidableEq, Repr

/-- ComboTree, from `src/types/ComboTree.ts`: up to six singular resolved
combo targets plus the directional pair list. -/
structure ComboTree where
  normal : Option Power
  if_hit : Option Power
  if_release : Option Power
  if_wall : Option Power
  if_button : Option Power
  if_dir : Option (List ActiveInput)
  if_interrupt : Option Power
deriving DecidableEq, Repr

/-- Translation of `findPowerByName` (src/pages/PowerEditor.tsx): `null`
for a falsy name, otherwise the first power (via `filter(...)[0]`) whose
`power_name` equals the query ignoring case; powers without a name never
match. -/
def findPowerByName (powers : List Power) (name : Option String) : Option Power :=
  match nonEmptyOpt name with
  | none => none
  | some n =>
    (powers.filter (fun p =>
      match p.power_name with
      | some pn => jsToLower pn = jsToLower n
      | none => false)).head?

/-- Resolution of one comma-separated element of the directional combo
field by `findActiveInputPowers` (src/pages/PowerEditor.tsx): the element
must split on ":" into exactly two parts, the upper-cased first part must
be a known direction token, and the second part must name a power in the
list; otherwise the element resolves to nothing. -/
def resolveDirEntry (powers : List Power) (input : String) : Option ActiveInput :=
  let data := jsSplit input ':'
  if data.length ≠ 2 then none
  else
    let directionKey := jsToUpper (data.headD "")
    let powerName := (data.get? 1).getD ""
    match directionLookup directionKey with
    | none => none
    | some direction =>
      match findPowerByName powers (some powerName) with
      | none => none
      | some combo => some { direction := direction, combo := combo }

/-- Translation of `findActiveInputPowers` (src/pages/PowerEditor.tsx):
undefined for a falsy input string, otherwise the comma-split elements are
resolved in order with malformed elements dropped silently, and an empty
resolved list collapses to undefined. -/
def findActiveInputPowers (powers : List Power) (inputString : Option String) :
    Option (List ActiveInput) :=
  match nonEmptyOpt inputString with
  | none => none
  | some s =>
    let activeInputs := (jsSplit s ',').filterMap (resolveDirEntry powers)
    if activeInputs.length > 0 then some activeInputs else none

/-- The seven-slot tree assembled by `getComboTreeForPower`
(src/pages/PowerEditor.tsx) before its all-empty check. -/
def forwardComboSlots (powers : List Power) (power : Power) : ComboTree :=
  { normal := findPowerByName powers (nonEmptyOpt power.combo_name)
    if_hit := findPowerByName powers (nonEmptyOpt power.combo_override_if_hit)
    if_release := findPowerByName powers (nonEmptyOpt power.combo_override_if_release)
    if_wall := findPowerByName powers (nonEmptyOpt power.combo_override_if_wall)
    if_button := findPowerByName powers (nonEmptyOpt power.combo_override_if_button)
    if_dir := findActiveInputPowers powers (nonEmptyOpt power.combo_override_if_dir)
    if_interrupt := findPowerByName powers (nonEmptyOpt power.combo_override_if_interrupt) }

/-- All-empty check `Object.values(tree).every(v => v === undefined)`
shared by the forward and reverse resolvers. -/
def comboTreeAllEmpty (t : ComboTree) : Bool :=
  t.normal.isNone && t.if_hit.isNone && t.if_release.isNone && t.if_wall.isNone &&
    t.if_button.isNone && t.if_dir.isNone && t.if_interrupt.isNone

/-- Translation of `getComboTreeForPower` (src/pages/PowerEditor.tsx):
resolve the six scalar combo fields and the directional field, returning
`null` instead of a tree whose seven slots are all undefined. -/
def getComboTreeForPower (powers : List Power) (power : Power) : Option ComboTree :=
  let tree := forwardComboSlots powers power
  if comboTreeAllEmpty tree then none else some tree

/-- The scan `powers.filter(p => p[key]?.toLowerCase() === name)` of
`getReverseComboTreeForPower`, where `name` is the target's lower-cased
power name. -/
def findMatching (powers : List Power) (key : Power → Option String) (name : String) :
    List Power :=
  powers.filter (fun p =>
    match key p with
    | some s => jsToLower s = name
    | none => false)

/-- Resolution of one comma-separated directional element during the
reverse scan of `getReverseComboTreeForPower`: destructuring
`const [dirKey, powerName] = input.split(":")` keeps the first two parts
(with no exact-arity check, unlike the forward parser), drops falsy parts,
requires the power-name part to equal the target name ignoring case, and
requires a known direction token. -/
def reverseDirEntry (power : Power) (name : String) (input : String) : Option ActiveInput :=
  let data := jsSplit input ':'
  let dirKey := (data.get? 0).getD ""
  let powerName := (data.get? 1).getD ""
  if dirKey.isEmpty || powerName.isEmpty then none
  else if jsToLower powerName ≠ name then none
  else
    match directionLookup (jsToUpper dirKey) with
    | none => none
    | some direction => some { direction := direction, combo := power }

/-- The `flatMap` over all powers collecting every directional entry whose
power-name part matches the target, from `getReverseComboTreeForPower`. -/
def reverseDirMatches (powers : List Power) (name : String) : List ActiveInput :=
  powers.flatMap (fun power =>
    match power.combo_override_if_dir with
    | none => []
    | some s =>
      if s.isEmpty then []
      else (jsSplit s ',').filterMap (reverseDirEntry power name))

/-- The seven-slot reverse tree assembled by `getReverseComboTreeForPower`
before its all-empty check, for a target whose lower-cased name is
`name`. -/
def reverseComboSlots (powers : List Power) (name : String) : ComboTree :=
  let ifDirMatches := reverseDirMatches powers name
  { normal := (findMatching powers Power.combo_name name).head?
    if_hit := (findMatching powers Power.combo_override_if_hit name).head?
    if_release := (findMatching powers Power.combo_override_if_release name).head?
    if_wall := (findMatching powers Power.combo_override_if_wall name).head?
    if_button := (findMatching powers Power.combo_override_if_button name).head?
    if_dir := if ifDirMatches.length > 0 then some ifDirMatches else none
    if_interrupt := (findMatching powers Power.combo_override_if_interrupt name).head? }

/-- Translation of `getReverseComboTreeForPower`
(src/pages/PowerEditor.tsx): `null` for a target with a falsy name,
otherwise the first power whose corresponding scalar field matches the
target's name ignoring case per slot kind, all matching directional
entries, and `null` instead of an all-empty tree. -/
def getReverseComboTreeForPower (powers : List Power) (target : Power) : Option ComboTree :=
  match nonEmptyOpt target.power_name with
  | none => none
  | some nm =>
    let tree := reverseComboSlots powers (jsToLower nm)
    if comboTreeAllEmpty tree then none else some tree

/-- Translation of `handleCreatePower` (src/pages/PowerEditor.tsx) at the
list level: a fresh record with `power_id = "" + (powers.length + 1)` and
`power_name = "New Power " + id` (all other columns nulled by
`createEmptyPower`) is spliced in right after the selected power when the
selection's id is found, otherwise appended. -/
def handleCreatePower (powers : List Power) (selectedPower : Option Power) : List Power :=
  let newId := toString (powers.length + 1)
  let emptyPower : Power :=
    { power_id := some newId, power_name := some ("New Power " ++ newId) }
  match selectedPower with
  | some sel =>
    match powers.findIdx? (fun p => p.power_id = sel.power_id) with
    | some selectedIndex =>
      powers.take (selectedIndex + 1) ++ emptyPower :: powers.drop (selectedIndex + 1)
    | none => powers ++ [emptyPower]
  | none => powers ++ [emptyPower]

/-- Translation of `handleDeletePower` (src/pages/PowerEditor.tsx) at the
list level: with no selection the list is untouched, otherwise every
record whose `power_id` equals the selected record's is filtered out. -/
def handleDeletePower (powers : List Power) (selectedPower : Option Power) : List Power :=
  match selectedPower with
  | none => powers
  | some sel => powers.filter (fun p => ¬(p.power_id = sel.power_id))

/-- Session step relation of the editor: a state transition of the power
list by one create or one delete, with an arbitrary current selection. -/
inductive EditorStep : List Power → List Power → Prop where
  | create (powers : List Power) (selectedPower : Option Power) :
      EditorStep powers (handleCreatePower powers selectedPower)
  | delete (powers : List Power) (selectedPower : Option Power) :
      EditorStep powers (handleDeletePower powers selectedPower)

/-- Reachability of a list state within one editor session. -/
def EditorReachable : List Power → List Power → Prop :=
  Relation.ReflTransGen EditorStep

/-- Truthiness projection of a power's id: the `node.power.power_id`
checks of PowerList.tsx treat a missing or empty id as falsy. -/
def truthyId (p : Power) : Option String := nonEmptyOpt p.power_id

/-- Translation of `findNodeByPowerName` (PowerList.tsx): lookup in the
`nameMap` built by iterating all nodes and calling
`nameMap.set(power_name.toLowerCase(), node)` for every truthy name, so
the LAST power with a given lower-cased name wins. -/
def findNodeByPowerName (powers : List Power) (name : Option String) : Option Power :=
  match nonEmptyOpt name with
  | none => none
  | some n =>
    (powers.filter (fun p =>
      match p.power_name with
      | some pn => !pn.isEmpty && jsToLower pn = jsToLower n
      | none => false)).getLast?

/-- Resolution of one combo-tree slot into a child node by
`buildComboTree` (PowerList.tsx): the slot's resolved power is looked up
again through the name map, and the target is attached only when it has a
truthy `power_id`. -/
def resolveChild (powers : List Power) (slot : Option Power) : Option Power :=
  match slot with
  | none => none
  | some comboPower =>
    match findNodeByPowerName powers comboPower.power_name with
    | none => none
    | some target => if (truthyId target).isSome then some target else none

/-- Children of a node in the final node graph produced by running
`buildComboTree` over every node (PowerList.tsx), in the order
`renderPowerNode` walks them: the six scalar slots then the directional
list.  A node with a falsy id is returned early by `buildComboTree` and
keeps no children. -/
def powerChildren (powers : List Power) (p : Power) : List Power :=
  if (truthyId p).isNone then []
  else
    match getComboTreeForPower powers p with
    | none => []
    | some t =>
      ([t.normal, t.if_hit, t.if_release, t.if_wall, t.if_button, t.if_interrupt].filterMap
        (resolveChild powers))
        ++ (t.if_dir.getD []).filterMap (fun ai => resolveChild powers (some ai.combo))

/-- The `referencedNodes` set accumulated by the `buildComboTree` passes:
the truthy ids of every power attached as a combo child of some node. -/
def referencedIds (powers : List Power) : List String :=
  powers.flatMap (fun parent => (powerChildren powers parent).filterMap truthyId)

/-- Finset of all truthy power ids, the termination measure domain of the
cycle-guarded render recursion. -/
def allTruthyIds (powers : List Power) : Finset String :=
  (powers.filterMap truthyId).toFinset

/-- Renderable node tree with the distinguished cycle leaf that
`renderPowerNode` emits when it re-encounters an id on the current
path. -/
inductive RenderTree where
  | cycleMarker : RenderTree
  | node : Power → List RenderTree → RenderTree

/-- Translation of the recursive walk of `renderPowerNode`
(PowerList.tsx): a node with a falsy id, or whose id is already in the
per-branch visited set, renders as the cycle marker; otherwise the node
renders with its children walked under the enlarged visited set.
Termination: every recursive call either removes a listed id from the
unvisited pool or moves to a child that is in the pool. -/
def renderPowerNode (powers : List Power) (visited : List String) (p : Power) : RenderTree :=
  match hpid : truthyId p with
  | none => .cycleMarker
  | some pid =>
    if hvis : pid ∈ visited then .cycleMarker
    else
      .node p ((powerChildren powers p).attach.map (fun c =>
        renderPowerNode powers (pid :: visited) c.1))
termination_by
  2 * ((allTruthyIds powers) \ visited.toFinset).card +
    (match truthyId p with
     | some q => if q ∈ allTruthyIds powers then 0 else 1
     | none => 1)
decreasing_by
  have hresolve : ∀ (slot : Option Power) (d : Power),
      resolveChild powers slot = some d → d ∈ powers ∧ (truthyId d).isSome := by
    intro slot d h
    unfold resolveChild at h
    cases slot with
    | none => simp at h
    | some comboPower =>
      simp only at h
      cases hf : findNodeByPowerName powers comboPower.power_name with
      | none => exact Option.noConfusion (hf ▸ h)
      | some target =>
        simp only [hf] at h
        by_cases ht : (truthyId target).isSome
        · simp only [ht, if_pos, Option.some.injEq] at h
          subst h
          refine ⟨?_, ht⟩
          unfold findNodeByPowerName at hf
          cases hn : nonEmptyOpt comboPower.power_name with
          | none => exact Option.noConfusion (hn ▸ hf)
          | some n =>
            simp only [hn] at hf
            have hmem := Option.mem_def.mpr hf
            obtain ⟨hne, heq⟩ := List.mem_getLast?_eq_getLast hmem
            have := heq ▸ List.getLast_mem hne
            exact (List.mem_filter.mp this).1
        · simp [ht] at h
  have hc : c.1 ∈ powers ∧ (truthyId c.1).isSome := by
    have h := c.2
    unfold powerChildren at h
    simp only [hpid, Option.isNone_some, Bool.false_eq_true, if_false] at h
    cases ht : getComboTreeForPower powers p with
    | none => simp only [ht] at h; simp at h
    | some t =>
      simp only [ht] at h
      rcases List.mem_append.mp h with h1 | h1
      · rcases List.mem_filterMap.mp h1 with ⟨slot, _, hres⟩
        exact hresolve _ _ hres
      · rcases List.mem_filterMap.mp h1 with ⟨ai, _, hres⟩
        exact hresolve _ _ hres
  obtain ⟨cid, hcid⟩ := Option.isSome_iff_exists.mp hc.2
  have hcin : cid ∈ allTruthyIds powers := by
    unfold allTruthyIds
    rw [List.mem_toFinset, List.mem_filterMap]
    exact ⟨c.1, hc.1, hcid⟩
  rw [hcid]
  simp only [hcin, if_pos]
  by_cases hq : pid ∈ allTruthyIds powers
  · have hlt : ((allTruthyIds powers) \ (pid :: visited).toFinset).card <
        ((allTruthyIds powers) \ visited.toFinset).card := by
      apply Finset.card_lt_card
      constructor
      · apply Finset.sdiff_subset_sdiff (le_refl _)
        intro x hx
        simp only [List.toFinset_cons, Finset.mem_insert]
        exact Or.inr hx
      · intro hsub
        have hmem : pid ∈ (allTruthyIds powers) \ visited.toFinset := by
          rw [Finset.mem_sdiff]
          exact ⟨hq, by simpa using hvis⟩
        have := hsub hmem
        rw [Finset.mem_sdiff] at this
        simp [List.toFinset_cons] at this
    rw [hpid]
    simp only [hq, if_pos]
    omega
  · have heq : (allTruthyIds powers) \ (pid :: visited).toFinset =
        (allTruthyIds powers) \ visited.toFinset := by
      ext x
      simp only [Finset.mem_sdiff, List.toFinset_cons, Finset.mem_insert]
      constructor
      · rintro ⟨hx, hnx⟩; exact ⟨hx, fun hh => hnx (Or.inr (by simpa using hh))⟩
      · rintro ⟨hx, hnx⟩
        refine ⟨hx, ?_⟩
        rintro (rfl | hh)
        · exact hq hx
        · exact hnx (by simpa using hh)
    rw [heq, hpid]
    simp only [hq, if_neg, if_false]
    omega

/-- Grouped forest roots: the object of named groups (in key insertion
order) plus the ungrouped bucket, as built by the grouping pass of
PowerList.tsx. -/
structure GroupingResult where
  grouped : List (String × List Power)
  ungrouped : List Power
deriving DecidableEq, Repr

/-- The JavaScript object update `if (!grouped[k]) grouped[k] = [];
grouped[k].push(node)`: append to an existing key's list, or add the key
at the end in insertion order. -/
def addToGroup (grouped : List (String × List Power)) (key : String) (p : Power) :
    List (String × List Power) :=
  if grouped.any (fun kv => kv.1 = key) then
    grouped.map (fun kv => if kv.1 = key then (kv.1, kv.2 ++ [p]) else kv)
  else grouped ++ [(key, [p])]

/-- Skip condition of the grouping pass:
`node.power.power_id && referencedNodes.has(node.power.power_id)`. -/
def groupSkip (refs : List String) (p : Power) : Bool :=
  match truthyId p with
  | some i => decide (i ∈ refs)
  | none => false

/-- One iteration of the grouping loop of PowerList.tsx: referenced nodes
are skipped, the rest land in the ungrouped bucket when
`(parent_item || "").trim() === ""` and otherwise in the group keyed by
the raw `parent_item`. -/
def groupStep (refs : List String) (acc : GroupingResult) (p : Power) : GroupingResult :=
  if groupSkip refs p then acc
  else
    let parentItem := p.parent_item.getD ""
    if (jsTrim parentItem).isEmpty then { acc with ungrouped := acc.ungrouped ++ [p] }
    else { acc with grouped := addToGroup acc.grouped parentItem p }

/-- Translation of the grouping pass of PowerList.tsx (the
`nodes.forEach` after all `buildComboTree` runs): partition the powers
whose id is not in the referenced set by their `parent_item`. -/
def groupPass (powers : List Power) : GroupingResult :=
  powers.foldl (groupStep (referencedIds powers)) { grouped := [], ungrouped := [] }

/-- All forest roots produced by the grouping pass: the members of every
named group followed by the ungrouped bucket. -/
def rootBucketMembers (powers : List Power) : List Power :=
  ((groupPass powers).grouped.flatMap Prod.snd) ++ (groupPass powers).ungrouped

/-- Sample record with id "1", used to instantiate proved theorems. -/
def pOne : Power := { power_id := some "1", power_name := some "Power One" }

/-- Sample record with id "2", used to instantiate proved theorems. -/
def pTwo : Power := { power_id := some "2", power_name := some "Power Two" }

/-- Sample record with id "3", used to instantiate proved theorems. -/
def pThree : Power := { power_id := some "3", power_name := some "Power Three" }

/-- Two-cast power whose only `base_damage` entry is the literal "0" on
cast 0, leaving cast 1 to inherit it through the fallback, with hitbox
geometry present. -/
def c1Power : Power :=
  { cast_time := some "0:1,0:1", base_damage := some "0",
    aoe_radius_x := some "5", aoe_radius_y := some "5" }

/-- Power with the two cast-time entries used as decoding examples in the
spec. -/
def c3Power : Power := { cast_time := some "12:3@something,5:0" }

/-- Power whose normal combo field names `pTwo` (up to case). -/
def c5Source : Power :=
  { power_id := some "5", power_name := some "Starter", combo_name := some "POWER TWO" }

/-- Power named in lower case, matched by a mixed-case query. -/
def nlPower : Power := { power_id := some "30", power_name := some "neutral light" }

/-- First of two powers sharing a name up to case. -/
def dupA : Power := { power_id := some "31", power_name := some "dup" }

/-- Second of two powers sharing a name up to case. -/
def dupB : Power := { power_id := some "32", power_name := some "Dup" }

/-- Target of the directional token "up" in the C7 examples. -/
def upAir : Power := { power_id := some "20", power_name := some "Up Air" }

/-- Target of the directional token "down" in the C7 examples. -/
def downAir : Power := { power_id := some "21", power_name := some "Down Air" }

/-- Power list for the directional-parsing examples. -/
def c7Powers : List Power := [upAir, downAir]

/-- Member `k` (1-based) of a ten-power cycle: its normal combo names the
next power, and power 10 points back to power 1. -/
def cyclePower (k : Nat) : Power :=
  { power_id := some (toString k), power_name := some ("c" ++ toString k),
    combo_name := some ("c" ++ toString (k % 10 + 1)) }

/-- Ten powers whose normal combos form a single 10-cycle. -/
def cyc10 : List Power := (List.range 10).map (fun k => cyclePower (k + 1))

/-- Diamond example, apex: normal combo to dB, if-hit combo to dC. -/
def dmdA : Power :=
  { power_id := some "41", power_name := some "dA",
    combo_name := some "dB", combo_override_if_hit := some "dC" }

/-- Diamond example, left branch pointing at dD. -/
def dmdB : Power := { power_id := some "42", power_name := some "dB", combo_name := some "dD" }

/-- Diamond example, right branch pointing at dD. -/
def dmdC : Power := { power_id := some "43", power_name := some "dC", combo_name := some "dD" }

/-- Diamond example, shared leaf reached by two cycle-free paths. -/
def dmdD : Power := { power_id := some "44", power_name := some "dD" }

/-- Diamond power list: dD is reachable from dA both via dB and via dC. -/
def dmdPowers : List Power := [dmdA, dmdB, dmdC, dmdD]

/-- Lookup of a group key in the assoc-list model of the grouped
object. -/
def groupLookup (grouped : List (String × List Power)) (k : String) : Option (List Power) :=
  (grouped.find? (fun kv => decide (kv.1 = k))).map Prod.snd

/-- The powers of `l` that the grouping pass sends to the named group
`k`: not referenced, trimmed `parent_item` non-empty, and keyed `k`. -/
def groupSel (refs : List String) (l : List Power) (k : String) : List Power :=
  l.filter (fun p => !groupSkip refs p && !(jsTrim (p.parent_item.getD "")).isEmpty &&
    decide (p.parent_item.getD "" = k))

/-- The powers of `l` that the grouping pass sends to the ungrouped
bucket: not referenced and trimmed `parent_item` empty. -/
def ungroupedSel (refs : List String) (l : List Power) : List Power :=
  l.filter (fun p => !groupSkip refs p && (jsTrim (p.parent_item.getD "")).isEmpty)

/-- Referenced power with duplicate id "2" (embedded via c9A's combo). -/
def c9B : Power := { power_id := some "2", power_name := some "b" }

/-- Power that references c9B as its normal combo. -/
def c9A : Power :=
  { power_id := some "1", power_name := some "a", combo_name := some "b",
    parent_item := some "G" }

/-- Unreferenced power sharing id "2" with the embedded c9B. -/
def c9C : Power :=
  { power_id := some "2", power_name := some "c", parent_item := some "G" }

/-- Duplicate-id list on which root partitioning drops a non-embedded
power. -/
def c9Powers : List Power := [c9A, c9B, c9C]

/-- Power carrying the grouping key "G", used to instantiate the named
group placement. -/
def grpPower : Power :=
  { power_id := some "7", power_name := some "g", parent_item := some "G" }

-- ===================== theorems =====================

/-- Claim C10: deleting the selected Power removes from the list exactly
the records whose `power_id` equals the selected record's id (all of
them, when several share that id), keeps every record with a different id
unchanged with its multiplicity and in the original relative order
(sublist), and leaves the list unchanged when no Power is selected. -/
theorem c10_delete_removes_exactly_selected_id (powers : List Power) :
    handleDeletePower powers none = powers ∧
    ∀ sel : Power,
      (handleDeletePower powers (some sel)).Sublist powers ∧
      (∀ p : Power, p ∈ handleDeletePower powers (some sel) → p.power_id ≠ sel.power_id) ∧
      (∀ p : Power, p.power_id ≠ sel.power_id →
        (handleDeletePower powers (some sel)).count p = powers.count p) := by
  refine ⟨rfl, fun sel => ⟨?_, ?_, ?_⟩⟩
  · exact List.filter_sublist powers
  · intro p hp
    have := (List.mem_filter.mp hp).2
    simpa using this
  · intro p hne
    exact List.count_filter (by simpa using hne)

/-- Witness for C10 at a concrete list: record `pTwo` has an id different
from `pOne`, and deleting `pOne` from `[pOne, pTwo]` keeps `pTwo` with
multiplicity one. -/
theorem c10_delete_removes_exactly_selected_id_witness :
    pTwo.power_id ≠ pOne.power_id ∧
    pTwo ∈ handleDeletePower [pOne, pTwo] (some pOne) ∧
    (handleDeletePower [pOne, pTwo] (some pOne)).count pTwo = ([pOne, pTwo] : List Power).count pTwo := by
  have h := (c10_delete_removes_exactly_selected_id [pOne, pTwo]).2 pOne
  exact ⟨by decide, by decide, h.2.2 pTwo (by decide)⟩

/-- Claim C1, counterexample: for the decoded casts of `c1Power`, cast 1's
fallback-resolved `base_damage` is the literal "0" (inherited from cast 0)
and its `aoe_radius_x` is populated (through the hitbox fallback), yet the
hitbox visibility predicate is true at frame 0 of cast 1, because the
render guard of PowerVisualizer.tsx tests the cast's raw `base_damage`,
not the fallback-resolved value. -/
theorem c1_fallback_zero_suppression_counterexample :
    fallbackBaseDamage (getVisualizerData (some c1Power)).casts 1 = "0" ∧
    (getHitboxDataWithFallback (getVisualizerData (some c1Power)).casts 1).aoe_radius_x = ["5"] ∧
    hitboxVisible (getVisualizerData (some c1Power)).casts 1 0 = true := by
  refine ⟨by decide, by decide, by decide⟩

/-- Claim C1 as amended: a Cast whose OWN (raw, pre-fallback)
`base_damage` equals the literal "0" shows no hitbox at any frame; a
fallback-resolved "0" inherited from Cast 0 does not suppress. -/
theorem c1_raw_zero_damage_suppresses_hitboxes (casts : List Cast) (i : Nat) (f : Int)
    (h : (casts.get? i).bind Cast.base_damage = some "0") :
    hitboxVisible casts i f = false := by
  unfold hitboxVisible
  cases hc : casts.get? i with
  | none => rfl
  | some c =>
    rw [hc] at h
    simp only [Option.some_bind] at h
    simp [h]

/-- Witness for the amended C1: cast 0 of `c1Power` carries the raw
`base_damage` "0" and its hitboxes are invisible at frame 0. -/
theorem c1_raw_zero_damage_suppresses_hitboxes_witness :
    ((getVisualizerData (some c1Power)).casts.get? 0).bind Cast.base_damage = some "0" ∧
    hitboxVisible (getVisualizerData (some c1Power)).casts 0 0 = false :=
  ⟨by decide, c1_raw_zero_damage_suppresses_hitboxes _ 0 0 (by decide)⟩

/-- A list without the delimiter splits into itself as the single
piece. -/
theorem splitChar_of_not_mem {c : Char} {l : List Char} (h : c ∉ l) :
    splitChar c l = [l] := by
  induction l with
  | nil => rfl
  | cons x xs ih =>
    have hx : ¬(x = c) := fun hh => h (hh ▸ List.mem_cons_self x xs)
    have hxs : c ∉ xs := fun hh => h (List.mem_cons_of_mem x hh)
    simp only [splitChar]
    rw [if_neg hx, ih hxs]

/-- Splitting cuts at the first delimiter occurrence when the prefix is
delimiter-free. -/
theorem splitChar_append {c : Char} {xs : List Char} (ys : List Char) (h : c ∉ xs) :
    splitChar c (xs ++ c :: ys) = xs :: splitChar c ys := by
  induction xs with
  | nil => simp [splitChar]
  | cons x xs ih =>
    have hx : ¬(x = c) := fun hh => h (hh ▸ List.mem_cons_self x xs)
    have hxs : c ∉ xs := fun hh => h (List.mem_cons_of_mem x hh)
    rw [List.cons_append]
    simp only [splitChar]
    rw [if_neg hx, ih hxs]

/-- Claim C3: a raw cast-time entry of shape START:ACTIVE@EXTRA loses its
@-suffix and decodes with startup and active coerced through
`Number(x) || 0` and the stored active count equal to ACTIVE_raw + 1;
concretely "12:3@something" decodes to startup 12 / active 4 and "5:0" to
startup 5 / active 1, the latter cast collapsing to exactly 1 total
frame, while a cast without the special startup/active shape totals
startup + active frames. -/
theorem c3_cast_time_decoding :
    (∀ a b extra : String, ':' ∉ a.data → '@' ∉ a.data → ':' ∉ b.data → '@' ∉ b.data →
      decodeCastTimeEntry [a ++ ":" ++ b ++ "@" ++ extra] 0 =
        some { startup := jsNumberOr0 a, active := jsNumberOr0 b + 1 }) ∧
    ((getVisualizerData (some c3Power)).casts.get? 0).bind Cast.cast_time =
      some { startup := 12, active := 4 } ∧
    ((getVisualizerData (some c3Power)).casts.get? 1).bind Cast.cast_time =
      some { startup := 5, active := 1 } ∧
    getTotalFramesForCast (getVisualizerData (some c3Power)).casts 1 = 1 ∧
    (∀ (casts : List Cast) (i : Nat) (ct : CastTime),
      (casts.get? i).bind Cast.cast_time = some ct →
      ((ct.startup > 0 → ct.active = 1 → getTotalFramesForCast casts i = 1) ∧
       (¬(ct.startup > 0 ∧ ct.active = 1) →
         getTotalFramesForCast casts i = ct.startup + ct.active))) := by
  refine ⟨?_, by decide, by decide, by decide, ?_⟩
  · intro a b extra ha hb hc hd
    have hdata : (a ++ ":" ++ b ++ "@" ++ extra).data =
        (a.data ++ ':' :: b.data) ++ '@' :: extra.data := by
      simp [String.data_append, List.append_assoc]
    have hnonempty : (a ++ ":" ++ b ++ "@" ++ extra).isEmpty = false := by
      rw [Bool.eq_false_iff]
      intro hh
      have hs := (String.isEmpty_iff _).mp hh
      rw [String.ext_iff, hdata] at hs
      simp at hs
    have hat : '@' ∉ a.data ++ ':' :: b.data := by
      intro hh
      rcases List.mem_append.mp hh with h1 | h1
      · exact hb h1
      · rcases List.mem_cons.mp h1 with h2 | h2
        · exact absurd h2 (by decide)
        · exact hd h2
    have hsplit1 : jsSplit (a ++ ":" ++ b ++ "@" ++ extra) '@' =
        String.mk (a.data ++ ':' :: b.data) :: (splitChar '@' extra.data).map String.mk := by
      unfold jsSplit
      rw [hdata, splitChar_append _ hat]
      rfl
    have hsplit2 : jsSplit (String.mk (a.data ++ ':' :: b.data)) ':' = [a, b] := by
      unfold jsSplit
      show (splitChar ':' (a.data ++ ':' :: b.data)).map String.mk = [a, b]
      rw [splitChar_append _ ha, splitChar_of_not_mem hc]
      rfl
    unfold decodeCastTimeEntry
    simp only [List.get?_cons_zero, hnonempty, Bool.false_eq_true, if_false, hsplit1,
      List.headD_cons, hsplit2]
    rfl
  · intro casts i ct h
    cases hg : casts.get? i with
    | none => rw [hg] at h; exact Option.noConfusion h
    | some c =>
      rw [hg] at h
      simp only [Option.some_bind] at h
      unfold getTotalFramesForCast
      rw [hg]
      simp only [Option.some_bind, h, Option.map_some', Option.getD_some]
      constructor
      · intro h1 h2
        simp [h1, h2]
      · intro h12
        by_cases h1 : ct.startup > 0
        · by_cases h2 : ct.active = 1
          · exact absurd ⟨h1, h2⟩ h12
          · simp [h1, h2]
        · simp [h1]

/-- Witness for C3: the shape conjunct applied to the entry "7:2@x" and
the frame-count conjunct applied to cast 0 of `c3Power` (startup 12,
active 4, no special-case collapse). -/
theorem c3_cast_time_decoding_witness :
    decodeCastTimeEntry ["7" ++ ":" ++ "2" ++ "@" ++ "x"] 0 =
      some { startup := jsNumberOr0 "7", active := jsNumberOr0 "2" + 1 } ∧
    getTotalFramesForCast (getVisualizerData (some c3Power)).casts 0 = (12 : Int) + 4 :=
  ⟨c3_cast_time_decoding.1 "7" "2" "x" (by decide) (by decide) (by decide) (by decide),
   (c3_cast_time_decoding.2.2.2.2 (getVisualizerData (some c3Power)).casts 0
      { startup := 12, active := 4 } (by decide)).2 (by decide)⟩

/-- Cast-time decoding yields nothing beyond the raw sequence. -/
theorem decodeCastTimeEntry_of_le {l : List String} {i : Nat} (h : l.length ≤ i) :
    decodeCastTimeEntry l i = none := by
  unfold decodeCastTimeEntry
  rw [List.get?_eq_getElem?, List.getElem?_eq_none h]

/-- Scalar access yields nothing beyond the raw sequence. -/
theorem getNonEmpty_of_le {l : List String} {i : Nat} (h : l.length ≤ i) :
    getNonEmpty l i = none := by
  unfold getNonEmpty
  rw [List.get?_eq_getElem?, List.getElem?_eq_none h]

/-- Every Cast the decoder yields at index `i` is the loop body's value
at `i`. -/
theorem getVisualizerData_get?_eq {p : Power} {i : Nat} {c : Cast}
    (h : (getVisualizerData (some p)).casts.get? i = some c) : c = buildCast p i := by
  simp only [getVisualizerData] at h
  rw [List.get?_eq_getElem?, List.getElem?_map] at h
  by_cases hi : i < visualizerLength p
  · rw [List.getElem?_range hi] at h
    simpa using h.symm
  · rw [List.getElem?_eq_none (by simpa using Nat.le_of_not_lt hi)] at h
    exact Option.noConfusion h

/-- Claim C4: the decoder produces exactly as many Casts as the maximum
length over the eleven derived sequences (the ten comma-split scalar
sequences plus the hitbox sequence), and a Cast index beyond a
particular sequence's length leaves that field undefined in the Cast —
per-index sparsity is preserved, not filled in by the decoder. -/
theorem c4_cast_count_and_sparsity (p : Power) :
    (getVisualizerData (some p)).casts.length =
      max (max (max (optSplitComma p.cast_time).length
                    (optSplitComma p.cast_impulse_x).length)
               (max (optSplitComma p.cast_impulse_y).length
                    (optSplitComma p.fire_impulse_x).length))
          (max (max (max (optSplitComma p.fire_impulse_y).length
                         (optSplitComma p.base_damage).length)
                    (max (optSplitComma p.variable_impulse).length
                         (optSplitComma p.fixed_impulse).length))
               (max (max (optSplitComma p.impulse_offset_x).length
                         (optSplitComma p.impulse_offset_y).length)
                    (parseHitboxes p.aoe_radius_x p.aoe_radius_y
                       p.center_offset_x p.center_offset_y).length)) ∧
    ∀ (i : Nat) (c : Cast), (getVisualizerData (some p)).casts.get? i = some c →
      ((optSplitComma p.cast_time).length ≤ i → c.cast_time = none) ∧
      ((optSplitComma p.cast_impulse_x).length ≤ i → c.cast_impulse_x = none) ∧
      ((optSplitComma p.cast_impulse_y).length ≤ i → c.cast_impulse_y = none) ∧
      ((optSplitComma p.fire_impulse_x).length ≤ i → c.fire_impulse_x = none) ∧
      ((optSplitComma p.fire_impulse_y).length ≤ i → c.fire_impulse_y = none) ∧
      ((optSplitComma p.base_damage).length ≤ i → c.base_damage = none) ∧
      ((optSplitComma p.variable_impulse).length ≤ i → c.variable_impulse = none) ∧
      ((optSplitComma p.fixed_impulse).length ≤ i → c.fixed_impulse = none) ∧
      ((optSplitComma p.impulse_offset_x).length ≤ i → c.impulse_offset_x = none) ∧
      ((optSplitComma p.impulse_offset_y).length ≤ i → c.impulse_offset_y = none) ∧
      ((parseHitboxes p.aoe_radius_x p.aoe_radius_y
          p.center_offset_x p.center_offset_y).length ≤ i → c.hitboxes = none) := by
  constructor
  · simp [getVisualizerData, visualizerLength]
  · intro i c h
    have hc := getVisualizerData_get?_eq h
    subst hc
    unfold buildCast
    refine ⟨fun hl => decodeCastTimeEntry_of_le hl,
      fun hl => getNonEmpty_of_le hl, fun hl => getNonEmpty_of_le hl,
      fun hl => getNonEmpty_of_le hl, fun hl => getNonEmpty_of_le hl,
      fun hl => getNonEmpty_of_le hl, fun hl => getNonEmpty_of_le hl,
      fun hl => getNonEmpty_of_le hl, fun hl => getNonEmpty_of_le hl,
      fun hl => getNonEmpty_of_le hl, fun hl => ?_⟩
    rw [List.get?_eq_getElem?, List.getElem?_eq_none hl]

/-- Witness for C4 at a concrete power: `c1Power` has two casts (driven
by the two cast-time entries) and its single-entry `base_damage` and
hitbox sequences leave cast 1's fields undefined. -/
theorem c4_cast_count_and_sparsity_witness :
    (getVisualizerData (some c1Power)).casts.get? 1 = some (buildCast c1Power 1) ∧
    (optSplitComma c1Power.base_damage).length ≤ 1 ∧
    (buildCast c1Power 1).base_damage = none ∧
    (buildCast c1Power 1).hitboxes = none := by
  have h := (c4_cast_count_and_sparsity c1Power).2 1 (buildCast c1Power 1) (by decide)
  exact ⟨by decide, by decide, (h.2.2.2.2.2).1 (by decide), h.2.2.2.2.2.2.2.2.2.2 (by decide)⟩

/-- Claim C5: a Power none of whose seven combo fields carries text
resolves to null (a single absent value), and conversely a Power for
which at least one of the seven slots resolves yields a ComboTree
object. -/
theorem c5_all_empty_combo_yields_null (powers : List Power) (P : Power) :
    ((nonEmptyOpt P.combo_name = none ∧
      nonEmptyOpt P.combo_override_if_hit = none ∧
      nonEmptyOpt P.combo_override_if_release = none ∧
      nonEmptyOpt P.combo_override_if_wall = none ∧
      nonEmptyOpt P.combo_override_if_button = none ∧
      nonEmptyOpt P.combo_override_if_dir = none ∧
      nonEmptyOpt P.combo_override_if_interrupt = none) →
      getComboTreeForPower powers P = none) ∧
    (¬ comboTreeAllEmpty (forwardComboSlots powers P) →
      getComboTreeForPower powers P = some (forwardComboSlots powers P)) := by
  constructor
  · rintro ⟨h1, h2, h3, h4, h5, h6, h7⟩
    have hs : forwardComboSlots powers P =
        { normal := none, if_hit := none, if_release := none, if_wall := none,
          if_button := none, if_dir := none, if_interrupt := none } := by
      unfold forwardComboSlots
      rw [h1, h2, h3, h4, h5, h6, h7]
      rfl
    unfold getComboTreeForPower
    rw [hs]
    rfl
  · intro hne
    unfold getComboTreeForPower
    rw [if_neg hne]

/-- Witness for C5: a blank record resolves to null, and `c5Source`
(whose normal combo resolves to `pTwo`) yields a ComboTree object. -/
theorem c5_all_empty_combo_yields_null_witness :
    getComboTreeForPower [pOne, pTwo] {} = none ∧
    getComboTreeForPower [c5Source, pTwo] c5Source =
      some (forwardComboSlots [c5Source, pTwo] c5Source) :=
  ⟨(c5_all_empty_combo_yields_null [pOne, pTwo] {}).1
      ⟨rfl, rfl, rfl, rfl, rfl, rfl, rfl⟩,
   (c5_all_empty_combo_yields_null [c5Source, pTwo] c5Source).2 (by decide)⟩

/-- Claim C6: forward name resolution returns the first Power in list
order whose `power_name` equals the query ignoring case, so a field value
"Neutral Light" matches a Power named "neutral light", duplicate names
resolve to the first in order, and every scalar slot of a reverse
ComboTree is the first Power in list order whose corresponding combo
field equals the target's name ignoring case. -/
theorem c6_name_resolution_case_insensitive_first_match (powers : List Power) :
    (∀ name : String, name.isEmpty = false →
      findPowerByName powers (some name) =
        powers.find? (fun p =>
          match p.power_name with
          | some pn => jsToLower pn = jsToLower name
          | none => false)) ∧
    (∀ (target : Power) (nm : String) (t : ComboTree),
      target.power_name = some nm → nm.isEmpty = false →
      getReverseComboTreeForPower powers target = some t →
      (t.normal = powers.find? (fun p =>
          match p.combo_name with
          | some s => jsToLower s = jsToLower nm
          | none => false) ∧
       t.if_hit = powers.find? (fun p =>
          match p.combo_override_if_hit with
          | some s => jsToLower s = jsToLower nm
          | none => false) ∧
       t.if_release = powers.find? (fun p =>
          match p.combo_override_if_release with
          | some s => jsToLower s = jsToLower nm
          | none => false) ∧
       t.if_wall = powers.find? (fun p =>
          match p.combo_override_if_wall with
          | some s => jsToLower s = jsToLower nm
          | none => false) ∧
       t.if_button = powers.find? (fun p =>
          match p.combo_override_if_button with
          | some s => jsToLower s = jsToLower nm
          | none => false) ∧
       t.if_interrupt = powers.find? (fun p =>
          match p.combo_override_if_interrupt with
          | some s => jsToLower s = jsToLower nm
          | none => false))) ∧
    findPowerByName [pOne, nlPower] (some "Neutral Light") = some nlPower ∧
    findPowerByName [dupA, dupB] (some "DUP") = some dupA := by
  refine ⟨?_, ?_, by decide, by decide⟩
  · intro name hne
    unfold findPowerByName
    simp only [nonEmptyOpt, hne, Bool.false_eq_true, if_false]
    exact List.filter_head? _ powers
  · intro target nm t hnm hne ht
    unfold getReverseComboTreeForPower at ht
    rw [hnm] at ht
    simp only [nonEmptyOpt, hne, Bool.false_eq_true, if_false] at ht
    have htree : t = reverseComboSlots powers (jsToLower nm) := by
      by_cases hall : comboTreeAllEmpty (reverseComboSlots powers (jsToLower nm))
      · rw [if_pos hall] at ht
        exact Option.noConfusion ht
      · rw [if_neg hall] at ht
        exact (Option.some.injEq _ _ ▸ ht).symm
    subst htree
    unfold reverseComboSlots findMatching
    refine ⟨?_, ?_, ?_, ?_, ?_, ?_⟩ <;> exact List.filter_head? _ powers

/-- Witness for C6: the reverse tree of `pTwo` over a list in which
`c5Source` names "POWER TWO" as its normal combo has `c5Source` as its
normal slot, matched ignoring case. -/
theorem c6_name_resolution_case_insensitive_first_match_witness :
    pTwo.power_name = some "Power Two" ∧
    getReverseComboTreeForPower [c5Source, pTwo] pTwo =
      some (reverseComboSlots [c5Source, pTwo] (jsToLower "Power Two")) ∧
    (reverseComboSlots [c5Source, pTwo] (jsToLower "Power Two")).normal = some c5Source := by
  have h := (c6_name_resolution_case_insensitive_first_match [c5Source, pTwo]).2.1
    pTwo "Power Two" (reverseComboSlots [c5Source, pTwo] (jsToLower "Power Two"))
    (by decide) (by decide) (by decide)
  exact ⟨by decide, by decide, by rw [h.1]; decide⟩

/-- Claim C7: directional-combo parsing is drop-silently partial — an
element that does not colon-split into exactly two parts, or whose
direction token is unknown, or whose power name has no match, resolves to
nothing; "up:Up Air,down:Down Air" with both targets present yields
exactly the two pairs in input order and "up:Up Air,sideways:X" exactly
one. -/
theorem c7_directional_parsing_drops_malformed :
    (∀ (powers : List Power) (entry : String), (jsSplit entry ':').length ≠ 2 →
      resolveDirEntry powers entry = none) ∧
    (∀ (powers : List Power) (entry : String),
      directionLookup (jsToUpper ((jsSplit entry ':').headD "")) = none →
      resolveDirEntry powers entry = none) ∧
    (∀ (powers : List Power) (entry : String),
      findPowerByName powers (some (((jsSplit entry ':').get? 1).getD "")) = none →
      resolveDirEntry powers entry = none) ∧
    findActiveInputPowers c7Powers (some "up:Up Air,down:Down Air") =
      some [{ direction := .up, combo := upAir }, { direction := .down, combo := downAir }] ∧
    findActiveInputPowers c7Powers (some "up:Up Air,sideways:X") =
      some [{ direction := .up, combo := upAir }] := by
  refine ⟨?_, ?_, ?_, by decide, by decide⟩
  · intro powers entry h
    unfold resolveDirEntry
    rw [if_pos h]
  · intro powers entry h
    unfold resolveDirEntry
    by_cases hl : (jsSplit entry ':').length ≠ 2
    · rw [if_pos hl]
    · rw [if_neg hl]
      simp only [h]
  · intro powers entry h
    unfold resolveDirEntry
    by_cases hl : (jsSplit entry ':').length ≠ 2
    · rw [if_pos hl]
    · rw [if_neg hl]
      cases hd : directionLookup (jsToUpper ((jsSplit entry ':').headD "")) with
      | none => simp only [hd]
      | some d => simp only [hd, h]

/-- Witness for C7: the three drop rules applied to a three-part entry,
an unknown direction token, and an unmatched power name. -/
theorem c7_directional_parsing_drops_malformed_witness :
    (jsSplit "a:b:c" ':').length ≠ 2 ∧
    resolveDirEntry c7Powers "a:b:c" = none ∧
    directionLookup (jsToUpper ((jsSplit "sideways:X" ':').headD "")) = none ∧
    resolveDirEntry c7Powers "sideways:X" = none ∧
    findPowerByName c7Powers (some (((jsSplit "up:Nobody" ':').get? 1).getD "")) = none ∧
    resolveDirEntry c7Powers "up:Nobody" = none :=
  ⟨by decide, c7_directional_parsing_drops_malformed.1 c7Powers "a:b:c" (by decide),
   by decide, c7_directional_parsing_drops_malformed.2.1 c7Powers "sideways:X" (by decide),
   by decide, c7_directional_parsing_drops_malformed.2.2.1 c7Powers "up:Nobody" (by decide)⟩

/-- Insertion of a record with a fresh id anywhere in a list keeps the id
projection duplicate-free. -/
theorem nodup_map_insert_between (l₁ l₂ : List Power) (q : Power)
    (hnd : ((l₁ ++ l₂).map Power.power_id).Nodup)
    (hfresh : q.power_id ∉ (l₁ ++ l₂).map Power.power_id) :
    ((l₁ ++ q :: l₂).map Power.power_id).Nodup := by
  rw [List.map_append, List.map_cons, List.nodup_middle, List.nodup_cons, ← List.map_append]
  exact ⟨hfresh, hnd⟩

/-- Claim C2, counterexample: the id-uniqueness invariant is NOT
preserved across a session with deletions.  Starting from the
distinct-id list [pOne, pTwo, pThree] (ids "1","2","3"), deleting the
selected pOne reaches [pTwo, pThree], and creating a power there assigns
id "" + (2 + 1) = "3", duplicating pThree's id. -/
theorem c2_power_id_reuse_counterexample :
    (([pOne, pTwo, pThree] : List Power).map Power.power_id).Nodup ∧
    EditorReachable [pOne, pTwo, pThree]
      (handleDeletePower [pOne, pTwo, pThree] (some pOne)) ∧
    handleDeletePower [pOne, pTwo, pThree] (some pOne) = [pTwo, pThree] ∧
    ¬ ((handleCreatePower [pTwo, pThree] none).map Power.power_id).Nodup :=
  ⟨by decide, Relation.ReflTransGen.single (EditorStep.delete _ _), by decide, by decide⟩

/-- Claim C2 as amended: creating a power preserves pairwise-distinct
`power_id` values exactly when the freshly assigned id
`"" + (count + 1)` is not already present — which deletions (and loads)
can violate, as the counterexample shows. -/
theorem c2_create_preserves_distinct_ids_if_fresh (powers : List Power)
    (selectedPower : Option Power)
    (hnd : (powers.map Power.power_id).Nodup)
    (hfresh : some (toString (powers.length + 1)) ∉ powers.map Power.power_id) :
    ((handleCreatePower powers selectedPower).map Power.power_id).Nodup := by
  have hins : ∀ (l₁ l₂ : List Power) (q : Power), l₁ ++ l₂ = powers →
      q.power_id = some (toString (powers.length + 1)) →
      ((l₁ ++ q :: l₂).map Power.power_id).Nodup := by
    intro l₁ l₂ q heq hq
    rw [List.map_append, List.map_cons, List.nodup_middle, List.nodup_cons,
      ← List.map_append, heq, hq]
    exact ⟨hfresh, hnd⟩
  unfold handleCreatePower
  cases selectedPower with
  | none =>
    have h := hins powers []
      { power_id := some (toString (powers.length + 1)),
        power_name := some ("New Power " ++ toString (powers.length + 1)) }
      (List.append_nil powers) rfl
    simpa using h
  | some sel =>
    cases hidx : powers.findIdx? (fun p => decide (p.power_id = sel.power_id)) with
    | none =>
      simp only [hidx]
      have h := hins powers []
        { power_id := some (toString (powers.length + 1)),
          power_name := some ("New Power " ++ toString (powers.length + 1)) }
        (List.append_nil powers) rfl
      simpa using h
    | some k =>
      simp only [hidx]
      exact hins _ _ _ (List.take_append_drop (k + 1) powers) rfl

/-- Witness for the amended C2: on [pOne, pTwo] (distinct ids "1","2",
fresh id "3" unused) creating next to the selected pOne keeps the ids
pairwise distinct. -/
theorem c2_create_preserves_distinct_ids_if_fresh_witness :
    (([pOne, pTwo] : List Power).map Power.power_id).Nodup ∧
    some (toString (([pOne, pTwo] : List Power).length + 1)) ∉
      ([pOne, pTwo] : List Power).map Power.power_id ∧
    ((handleCreatePower [pOne, pTwo] (some pOne)).map Power.power_id).Nodup :=
  ⟨by decide, by decide,
   c2_create_preserves_distinct_ids_if_fresh [pOne, pTwo] (some pOne) (by decide) (by decide)⟩

/-- Unfolding of `renderPowerNode` on a falsy id: the cycle-marker leaf. -/
theorem renderPowerNode_falsy (powers : List Power) (visited : List String) (p : Power)
    (h : truthyId p = none) : renderPowerNode powers visited p = .cycleMarker := by
  rw [renderPowerNode.eq_def]
  split
  · rfl
  · rename_i pid hpid
    rw [h] at hpid
    exact Option.noConfusion hpid

/-- Unfolding of `renderPowerNode` on an id already on the current path:
the cycle-marker leaf. -/
theorem renderPowerNode_revisit (powers : List Power) (visited : List String) (p : Power)
    (pid : String) (h : truthyId p = some pid) (hv : pid ∈ visited) :
    renderPowerNode powers visited p = .cycleMarker := by
  rw [renderPowerNode.eq_def]
  split
  · rfl
  · rename_i pid2 hpid
    rw [h] at hpid
    injection hpid with he
    subst he
    rw [dif_pos hv]

/-- Unfolding of `renderPowerNode` on a fresh id: a node whose children
are rendered under the enlarged visited set. -/
theorem renderPowerNode_expand (powers : List Power) (visited : List String) (p : Power)
    (pid : String) (h : truthyId p = some pid) (hv : pid ∉ visited) :
    renderPowerNode powers visited p =
      .node p ((powerChildren powers p).map (renderPowerNode powers (pid :: visited))) := by
  rw [renderPowerNode.eq_def]
  split
  · rename_i hpid
    rw [h] at hpid
    exact Option.noConfusion hpid
  · rename_i pid2 hpid
    rw [h] at hpid
    injection hpid with he
    subst he
    rw [dif_neg hv, List.attach_map_val]

/-- One step of the render walk on a node with a single combo child. -/
theorem renderPowerNode_step_single (powers : List Power) (visited : List String)
    (p c : Power) (pid : String) (h : truthyId p = some pid) (hv : pid ∉ visited)
    (hch : powerChildren powers p = [c]) :
    renderPowerNode powers visited p = .node p [renderPowerNode powers (pid :: visited) c] := by
  rw [renderPowerNode_expand powers visited p pid h hv, hch]
  rfl

/-- Claim C8: combo-tree rendering terminates on every power list (the
recursion is well-founded by construction); re-encountering a power id
already on the current path ends the branch with the distinguished cycle
marker instead of recursing, a fresh node expands normally, a 10-node
combo cycle renders as a 10-deep chain closed by a single cycle marker,
and the same power reached via two different cycle-free paths of a
diamond is expanded normally on both. -/
theorem c8_cycle_guard_and_termination :
    (∀ (powers : List Power) (visited : List String) (p : Power) (pid : String),
      truthyId p = some pid → pid ∈ visited →
      renderPowerNode powers visited p = .cycleMarker) ∧
    (∀ (powers : List Power) (visited : List String) (p : Power) (pid : String),
      truthyId p = some pid → pid ∉ visited →
      renderPowerNode powers visited p =
        .node p ((powerChildren powers p).map (renderPowerNode powers (pid :: visited)))) ∧
    renderPowerNode cyc10 [] (cyclePower 1) =
      RenderTree.node (cyclePower 1) [RenderTree.node (cyclePower 2) [RenderTree.node (cyclePower 3) [RenderTree.node (cyclePower 4) [RenderTree.node (cyclePower 5) [RenderTree.node (cyclePower 6) [RenderTree.node (cyclePower 7) [RenderTree.node (cyclePower 8) [RenderTree.node (cyclePower 9) [RenderTree.node (cyclePower 10) [RenderTree.cycleMarker]]]]]]]]]] ∧
    renderPowerNode dmdPowers [] dmdA =
      RenderTree.node dmdA
        [RenderTree.node dmdB [RenderTree.node dmdD []],
         RenderTree.node dmdC [RenderTree.node dmdD []]] := by
  refine ⟨renderPowerNode_revisit, renderPowerNode_expand, ?_, ?_⟩
  · rw [renderPowerNode_step_single cyc10 [] (cyclePower 1) (cyclePower 2) "1" (by decide) (by decide) (by decide)]
    rw [renderPowerNode_step_single cyc10 ["1"] (cyclePower 2) (cyclePower 3) "2" (by decide) (by decide) (by decide)]
    rw [renderPowerNode_step_single cyc10 ["2", "1"] (cyclePower 3) (cyclePower 4) "3" (by decide) (by decide) (by decide)]
    rw [renderPowerNode_step_single cyc10 ["3", "2", "1"] (cyclePower 4) (cyclePower 5) "4" (by decide) (by decide) (by decide)]
    rw [renderPowerNode_step_single cyc10 ["4", "3", "2", "1"] (cyclePower 5) (cyclePower 6) "5" (by decide) (by decide) (by decide)]
    rw [renderPowerNode_step_single cyc10 ["5", "4", "3", "2", "1"] (cyclePower 6) (cyclePower 7) "6" (by decide) (by decide) (by decide)]
    rw [renderPowerNode_step_single cyc10 ["6", "5", "4", "3", "2", "1"] (cyclePower 7) (cyclePower 8) "7" (by decide) (by decide) (by decide)]
    rw [renderPowerNode_step_single cyc10 ["7", "6", "5", "4", "3", "2", "1"] (cyclePower 8) (cyclePower 9) "8" (by decide) (by decide) (by decide)]
    rw [renderPowerNode_step_single cyc10 ["8", "7", "6", "5", "4", "3", "2", "1"] (cyclePower 9) (cyclePower 10) "9" (by decide) (by decide) (by decide)]
    rw [renderPowerNode_step_single cyc10 ["9", "8", "7", "6", "5", "4", "3", "2", "1"] (cyclePower 10) (cyclePower 1) "10" (by decide) (by decide) (by decide)]
    rw [renderPowerNode_revisit cyc10 ["10", "9", "8", "7", "6", "5", "4", "3", "2", "1"] (cyclePower 1) "1" (by decide) (by decide)]
  · rw [renderPowerNode_expand dmdPowers [] dmdA "41" (by decide) (by decide)]
    have hA : powerChildren dmdPowers dmdA = [dmdB, dmdC] := by decide
    rw [hA]
    simp only [List.map_cons, List.map_nil]
    rw [renderPowerNode_step_single dmdPowers ["41"] dmdB dmdD "42" (by decide) (by decide)
      (by decide)]
    rw [renderPowerNode_step_single dmdPowers ["41"] dmdC dmdD "43" (by decide) (by decide)
      (by decide)]
    rw [renderPowerNode_expand dmdPowers ["42", "41"] dmdD "44" (by decide) (by decide)]
    rw [renderPowerNode_expand dmdPowers ["43", "41"] dmdD "44" (by decide) (by decide)]
    have hD : powerChildren dmdPowers dmdD = [] := by decide
    rw [hD]
    rfl

/-- Witness for C8: the revisit rule applied to cyclePower 1 with its id
already on the path, and the expansion rule applied to the leaf dmdD. -/
theorem c8_cycle_guard_and_termination_witness :
    truthyId (cyclePower 1) = some "1" ∧ ("1" : String) ∈ ["1"] ∧
    renderPowerNode cyc10 ["1"] (cyclePower 1) = .cycleMarker ∧
    renderPowerNode dmdPowers [] dmdD =
      .node dmdD ((powerChildren dmdPowers dmdD).map (renderPowerNode dmdPowers ["44"])) :=
  ⟨by decide, by decide,
   c8_cycle_guard_and_termination.1 cyc10 ["1"] (cyclePower 1) "1" (by decide) (by decide),
   c8_cycle_guard_and_termination.2.1 dmdPowers [] dmdD "44" (by decide) (by decide)⟩


/-- Finding skips a prefix in which nothing matches. -/
theorem find?_append_of_none {α : Type} (l₁ l₂ : List α) (p : α → Bool)
    (h : l₁.find? p = none) : (l₁ ++ l₂).find? p = l₂.find? p := by
  induction l₁ with
  | nil => rfl
  | cons x xs ih =>
    rw [List.cons_append]
    by_cases hx : p x
    · rw [List.find?_cons_of_pos _ hx] at h
      exact Option.noConfusion h
    · rw [List.find?_cons_of_neg _ (by simpa using hx)] at h
      rw [List.find?_cons_of_neg _ (by simpa using hx)]
      exact ih h

/-- Finding in the prefix decides the search over the whole append. -/
theorem find?_append_of_some {α : Type} (l₁ l₂ : List α) (p : α → Bool) (a : α)
    (h : l₁.find? p = some a) : (l₁ ++ l₂).find? p = some a := by
  induction l₁ with
  | nil => exact Option.noConfusion h
  | cons x xs ih =>
    rw [List.cons_append]
    by_cases hx : p x
    · rw [List.find?_cons_of_pos _ hx] at h
      rw [List.find?_cons_of_pos _ hx]
      exact h
    · rw [List.find?_cons_of_neg _ (by simpa using hx)] at h
      rw [List.find?_cons_of_neg _ (by simpa using hx)]
      exact ih h

/-- The bumping map of `addToGroup` preserves every key. -/
theorem addToGroup_bump_fst (key : String) (p : Power) (kv : String × List Power) :
    ((fun kv => if kv.1 = key then (kv.1, kv.2 ++ [p]) else kv) kv).1 = kv.1 := by
  by_cases h : kv.1 = key <;> simp [h]

/-- Appending to a key's group changes that key's lookup by one pushed
element. -/
theorem addToGroup_lookup_same (g : List (String × List Power)) (key : String) (p : Power) :
    groupLookup (addToGroup g key p) key = some ((groupLookup g key).getD [] ++ [p]) := by
  unfold addToGroup groupLookup
  by_cases hany : g.any (fun kv => decide (kv.1 = key))
  · rw [if_pos hany, List.find?_map]
    have hpe : ((fun kv : String × List Power => decide (kv.1 = key)) ∘
        (fun kv => if kv.1 = key then (kv.1, kv.2 ++ [p]) else kv)) =
        (fun kv : String × List Power => decide (kv.1 = key)) := by
      funext kv
      simp [Function.comp, addToGroup_bump_fst key p kv]
    rw [hpe]
    have hsome : (g.find? (fun kv => decide (kv.1 = key))).isSome := by
      rw [List.find?_isSome]
      simpa using List.any_eq_true.mp hany
    obtain ⟨kv0, hkv0⟩ := Option.isSome_iff_exists.mp hsome
    have hk0 : kv0.1 = key := by simpa using List.find?_some hkv0
    rw [hkv0]
    simp [hk0]
  · rw [if_neg hany]
    have hfind : g.find? (fun kv => decide (kv.1 = key)) = none := by
      rw [List.find?_eq_none]
      intro kv hkv hdec
      exact hany (List.any_eq_true.mpr ⟨kv, hkv, hdec⟩)
    rw [find?_append_of_none _ _ _ hfind, hfind]
    simp

/-- Appending to one key's group leaves every other key's lookup
unchanged. -/
theorem addToGroup_lookup_other (g : List (String × List Power)) (key k : String) (p : Power)
    (hne : k ≠ key) : groupLookup (addToGroup g key p) k = groupLookup g k := by
  unfold addToGroup groupLookup
  by_cases hany : g.any (fun kv => decide (kv.1 = key))
  · rw [if_pos hany, List.find?_map]
    have hpe : ((fun kv : String × List Power => decide (kv.1 = k)) ∘
        (fun kv => if kv.1 = key then (kv.1, kv.2 ++ [p]) else kv)) =
        (fun kv : String × List Power => decide (kv.1 = k)) := by
      funext kv
      simp [Function.comp, addToGroup_bump_fst key p kv]
    rw [hpe]
    cases hfind : g.find? (fun kv => decide (kv.1 = k)) with
    | none => rfl
    | some kv0 =>
      have hk0 : kv0.1 = k := by simpa using List.find?_some hfind
      have : ¬(kv0.1 = key) := fun hh => hne (hk0 ▸ hh)
      simp [this]
  · rw [if_neg hany]
    cases hfind : g.find? (fun kv => decide (kv.1 = k)) with
    | none =>
      rw [find?_append_of_none _ _ _ hfind]
      simp only [List.find?_cons, List.find?_nil]
      have : ¬(key = k) := fun hh => hne hh.symm
      simp [this, hfind]
    | some kv0 =>
      rw [find?_append_of_some _ _ _ _ hfind]

/-- Keys of the grouped object after one insertion: unchanged for an
existing key, extended at the end for a new one. -/
theorem addToGroup_keys (g : List (String × List Power)) (key : String) (p : Power) :
    (addToGroup g key p).map Prod.fst =
      if g.any (fun kv => decide (kv.1 = key)) then g.map Prod.fst
      else g.map Prod.fst ++ [key] := by
  unfold addToGroup
  by_cases hany : g.any (fun kv => decide (kv.1 = key))
  · rw [if_pos hany, if_pos hany, List.map_map]
    congr 1
    funext kv
    exact addToGroup_bump_fst key p kv
  · rw [if_neg hany, if_neg hany, List.map_append]
    rfl

/-- Insertion preserves duplicate-freedom of the group keys. -/
theorem addToGroup_keys_nodup (g : List (String × List Power)) (key : String) (p : Power)
    (h : (g.map Prod.fst).Nodup) : ((addToGroup g key p).map Prod.fst).Nodup := by
  rw [addToGroup_keys]
  by_cases hany : g.any (fun kv => decide (kv.1 = key))
  · rw [if_pos hany]
    exact h
  · rw [if_neg hany]
    have hkey : key ∉ g.map Prod.fst := by
      intro hk
      obtain ⟨kv, hkv, hfst⟩ := List.mem_map.mp hk
      exact hany (List.any_eq_true.mpr ⟨kv, hkv, by simp [hfst]⟩)
    rw [show g.map Prod.fst ++ [key] = g.map Prod.fst ++ key :: [] from rfl, List.nodup_middle,
      List.nodup_cons]
    exact ⟨by simpa using hkey, by simpa using h⟩

/-- A referenced node is skipped unchanged by one grouping step. -/
theorem groupStep_skip (refs : List String) (acc : GroupingResult) (p : Power)
    (h : groupSkip refs p = true) : groupStep refs acc p = acc := by
  unfold groupStep
  rw [if_pos h]

/-- An unreferenced node with blank trimmed `parent_item` is pushed into
the ungrouped bucket by one grouping step. -/
theorem groupStep_ungrouped (refs : List String) (acc : GroupingResult) (p : Power)
    (h1 : groupSkip refs p = false) (h2 : (jsTrim (p.parent_item.getD "")).isEmpty = true) :
    groupStep refs acc p = { acc with ungrouped := acc.ungrouped ++ [p] } := by
  unfold groupStep
  simp [h1, h2]

/-- An unreferenced node with non-blank trimmed `parent_item` is pushed
into its named group by one grouping step. -/
theorem groupStep_grouped (refs : List String) (acc : GroupingResult) (p : Power)
    (h1 : groupSkip refs p = false) (h2 : (jsTrim (p.parent_item.getD "")).isEmpty = false) :
    groupStep refs acc p =
      { acc with grouped := addToGroup acc.grouped (p.parent_item.getD "") p } := by
  unfold groupStep
  simp [h1, h2]

/-- Running the grouping fold appends exactly the kept blank-key powers
to the ungrouped bucket, in order. -/
theorem groupFold_ungrouped (refs : List String) :
    ∀ (l : List Power) (acc : GroupingResult),
      (l.foldl (groupStep refs) acc).ungrouped = acc.ungrouped ++ ungroupedSel refs l := by
  intro l
  induction l with
  | nil => intro acc; simp [ungroupedSel]
  | cons p rest ih =>
    intro acc
    rw [List.foldl_cons]
    by_cases h1 : groupSkip refs p
    · rw [groupStep_skip refs acc p h1, ih]
      unfold ungroupedSel
      rw [List.filter_cons]
      simp [h1]
    · by_cases h2 : (jsTrim (p.parent_item.getD "")).isEmpty
      · rw [groupStep_ungrouped refs acc p (by simpa using h1) h2, ih]
        unfold ungroupedSel
        rw [List.filter_cons]
        simp [h1, h2]
      · rw [groupStep_grouped refs acc p (by simpa using h1) (by simpa using h2), ih]
        unfold ungroupedSel
        rw [List.filter_cons]
        simp [h1, h2]

/-- Running the grouping fold extends each key's group by exactly the
kept powers carrying that key, in order. -/
theorem groupFold_lookup (refs : List String) :
    ∀ (l : List Power) (acc : GroupingResult) (k : String),
      groupLookup (l.foldl (groupStep refs) acc).grouped k =
        match groupLookup acc.grouped k with
        | some l0 => some (l0 ++ groupSel refs l k)
        | none => if groupSel refs l k = [] then none else some (groupSel refs l k) := by
  intro l
  induction l with
  | nil =>
    intro acc k
    simp only [List.foldl_nil]
    cases h : groupLookup acc.grouped k with
    | none => simp [groupSel]
    | some l0 => simp [groupSel]
  | cons p rest ih =>
    intro acc k
    rw [List.foldl_cons]
    by_cases h1 : groupSkip refs p
    · have hsel : groupSel refs (p :: rest) k = groupSel refs rest k := by
        unfold groupSel
        rw [List.filter_cons]
        simp [h1]
      rw [groupStep_skip refs acc p h1, ih, hsel]
    · by_cases h2 : (jsTrim (p.parent_item.getD "")).isEmpty
      · have hsel : groupSel refs (p :: rest) k = groupSel refs rest k := by
          unfold groupSel
          rw [List.filter_cons]
          simp [h1, h2]
        rw [groupStep_ungrouped refs acc p (by simpa using h1) h2, ih, hsel]
      · by_cases h3 : p.parent_item.getD "" = k
        · subst h3
          have hsel : groupSel refs (p :: rest) (p.parent_item.getD "") =
              p :: groupSel refs rest (p.parent_item.getD "") := by
            unfold groupSel
            rw [List.filter_cons]
            simp [h1, h2]
          rw [groupStep_grouped refs acc p (by simpa using h1) (by simpa using h2), ih]
          rw [show ({ acc with
              grouped := addToGroup acc.grouped (p.parent_item.getD "") p } :
              GroupingResult).grouped = addToGroup acc.grouped (p.parent_item.getD "") p
            from rfl]
          rw [addToGroup_lookup_same acc.grouped (p.parent_item.getD "") p, hsel]
          cases h : groupLookup acc.grouped (p.parent_item.getD "") with
          | none => simp
          | some l0 => simp
        · have hsel : groupSel refs (p :: rest) k = groupSel refs rest k := by
            unfold groupSel
            rw [List.filter_cons]
            simp [h1, h2, h3]
          rw [groupStep_grouped refs acc p (by simpa using h1) (by simpa using h2), ih,
            addToGroup_lookup_other acc.grouped (p.parent_item.getD "") k p
              (fun hh => h3 hh.symm), hsel]

/-- The grouping fold keeps the group keys duplicate-free. -/
theorem groupFold_keys_nodup (refs : List String) :
    ∀ (l : List Power) (acc : GroupingResult),
      (acc.grouped.map Prod.fst).Nodup →
      ((l.foldl (groupStep refs) acc).grouped.map Prod.fst).Nodup := by
  intro l
  induction l with
  | nil => intro acc h; simpa using h
  | cons p rest ih =>
    intro acc h
    rw [List.foldl_cons]
    apply ih
    by_cases h1 : groupSkip refs p
    · rw [groupStep_skip refs acc p h1]
      exact h
    · by_cases h2 : (jsTrim (p.parent_item.getD "")).isEmpty
      · rw [groupStep_ungrouped refs acc p (by simpa using h1) h2]
        exact h
      · rw [groupStep_grouped refs acc p (by simpa using h1) (by simpa using h2)]
        exact addToGroup_keys_nodup _ _ _ h

/-- With duplicate-free keys, membership of an entry determines the
search result for its key. -/
theorem find?_entry_of_nodup_keys (g : List (String × List Power)) (k : String)
    (ll : List Power) (hnd : (g.map Prod.fst).Nodup) (hmem : (k, ll) ∈ g) :
    g.find? (fun kv => decide (kv.1 = k)) = some (k, ll) := by
  induction g with
  | nil => simp at hmem
  | cons kv tl ih =>
    rcases List.mem_cons.mp hmem with h0 | h0
    · rw [← h0]
      exact List.find?_cons_of_pos _ (by simp)
    · have hk : ¬(kv.1 = k) := by
        intro hh
        have hin : k ∈ tl.map Prod.fst := List.mem_map.mpr ⟨(k, ll), h0, rfl⟩
        rw [List.map_cons, List.nodup_cons] at hnd
        exact hnd.1 (hh ▸ hin)
      rw [List.find?_cons_of_neg _ (by simpa using hk)]
      apply ih _ h0
      rw [List.map_cons, List.nodup_cons] at hnd
      exact hnd.2

/-- The ungrouped bucket of the whole grouping pass. -/
theorem groupPass_ungrouped (powers : List Power) :
    (groupPass powers).ungrouped = ungroupedSel (referencedIds powers) powers := by
  unfold groupPass
  rw [groupFold_ungrouped]
  rfl

/-- The named groups of the whole grouping pass, keyed lookup view. -/
theorem groupPass_lookup (powers : List Power) (k : String) :
    groupLookup (groupPass powers).grouped k =
      if groupSel (referencedIds powers) powers k = [] then none
      else some (groupSel (referencedIds powers) powers k) := by
  unfold groupPass
  rw [groupFold_lookup]
  rfl

/-- The grouping pass produces duplicate-free group keys. -/
theorem groupPass_keys_nodup (powers : List Power) :
    ((groupPass powers).grouped.map Prod.fst).Nodup := by
  unfold groupPass
  exact groupFold_keys_nodup _ powers _ (by simp)

/-- Every named-group entry of the grouping pass holds exactly the kept
powers keyed by it. -/
theorem groupPass_entry_eq {powers : List Power} {k : String} {ll : List Power}
    (h : (k, ll) ∈ (groupPass powers).grouped) :
    ll = groupSel (referencedIds powers) powers k := by
  have hf := find?_entry_of_nodup_keys _ _ _ (groupPass_keys_nodup powers) h
  have hl : groupLookup (groupPass powers).grouped k = some ll := by
    unfold groupLookup
    rw [hf]
    rfl
  rw [groupPass_lookup] at hl
  by_cases hsel : groupSel (referencedIds powers) powers k = []
  · rw [if_pos hsel] at hl
    exact Option.noConfusion hl
  · rw [if_neg hsel] at hl
    injection hl with he
    exact he.symm

/-- A resolved combo child is one of the listed powers and carries a
truthy id. -/
theorem resolveChild_mem {powers : List Power} {slot : Option Power} {c : Power}
    (h : resolveChild powers slot = some c) : c ∈ powers ∧ (truthyId c).isSome := by
  unfold resolveChild at h
  cases slot with
  | none => simp at h
  | some comboPower =>
    simp only at h
    cases hf : findNodeByPowerName powers comboPower.power_name with
    | none => exact Option.noConfusion (hf ▸ h)
    | some target =>
      simp only [hf] at h
      by_cases ht : (truthyId target).isSome
      · simp only [ht, if_pos, Option.some.injEq] at h
        subst h
        refine ⟨?_, ht⟩
        unfold findNodeByPowerName at hf
        cases hn : nonEmptyOpt comboPower.power_name with
        | none => exact Option.noConfusion (hn ▸ hf)
        | some n =>
          simp only [hn] at hf
          have hmem := Option.mem_def.mpr hf
          obtain ⟨hne, heq⟩ := List.mem_getLast?_eq_getLast hmem
          have := heq ▸ List.getLast_mem hne
          exact (List.mem_filter.mp this).1
      · simp [ht] at h

/-- Every child in the node graph is one of the listed powers with a
truthy id. -/
theorem powerChildren_mem {powers : List Power} {p c : Power}
    (h : c ∈ powerChildren powers p) : c ∈ powers ∧ (truthyId c).isSome := by
  unfold powerChildren at h
  by_cases h0 : (truthyId p).isNone
  · simp [h0] at h
  · simp only [h0, Bool.false_eq_true, if_false] at h
    cases ht : getComboTreeForPower powers p with
    | none => simp only [ht] at h; simp at h
    | some t =>
      simp only [ht] at h
      rcases List.mem_append.mp h with h1 | h1
      · rcases List.mem_filterMap.mp h1 with ⟨slot, _, hres⟩
        exact resolveChild_mem hres
      · rcases List.mem_filterMap.mp h1 with ⟨ai, _, hres⟩
        exact resolveChild_mem hres

/-- A combo child's truthy id lands in the referenced-id set. -/
theorem mem_referencedIds {powers : List Power} {parent p : Power} {i : String}
    (hpar : parent ∈ powers) (hch : p ∈ powerChildren powers parent)
    (hid : truthyId p = some i) : i ∈ referencedIds powers := by
  unfold referencedIds
  rw [List.mem_flatMap]
  exact ⟨parent, hpar, List.mem_filterMap.mpr ⟨p, hch, hid⟩⟩

/-- A truthy id is the record's id. -/
theorem truthyId_eq_power_id {p : Power} {i : String} (h : truthyId p = some i) :
    p.power_id = some i := by
  unfold truthyId nonEmptyOpt at h
  cases hp : p.power_id with
  | none => rw [hp] at h; exact Option.noConfusion h
  | some s =>
    rw [hp] at h
    by_cases hs : s.isEmpty
    · simp [hs] at h
    · simp only [hs, Bool.false_eq_true, if_false] at h
      exact h

/-- Claim C9, counterexample: the skip set is keyed by `power_id`, so on
a duplicate-id list the non-embedded power c9C (referenced by nobody,
with non-empty `parent_item` "G") is dropped from every root bucket,
because it shares id "2" with the embedded power c9B. -/
theorem c9_duplicate_id_shadowing_counterexample :
    c9C ∈ c9Powers ∧
    (∀ parent ∈ c9Powers, c9C ∉ powerChildren c9Powers parent) ∧
    c9C.parent_item = some "G" ∧
    c9C ∉ rootBucketMembers c9Powers := by decide

/-- Claim C9 as amended: embedded powers (combo targets of some listed
power) never appear in the ungrouped bucket or in any named group, with
no hypothesis; and on a list whose `power_id` values are pairwise
distinct, every non-embedded power appears exactly once — in the
ungrouped bucket when its trimmed `parent_item` is blank, otherwise in
exactly the group keyed by its raw `parent_item`. -/
theorem c9_root_partition (powers : List Power) :
    (∀ parent p, parent ∈ powers → p ∈ powerChildren powers parent →
      p ∉ (groupPass powers).ungrouped ∧
      ∀ k ll, (k, ll) ∈ (groupPass powers).grouped → p ∉ ll) ∧
    ((powers.map Power.power_id).Nodup →
      ∀ p, p ∈ powers → (∀ parent ∈ powers, p ∉ powerChildren powers parent) →
      ((jsTrim (p.parent_item.getD "")).isEmpty = true →
        (groupPass powers).ungrouped.count p = 1 ∧
        ∀ k ll, (k, ll) ∈ (groupPass powers).grouped → p ∉ ll) ∧
      ((jsTrim (p.parent_item.getD "")).isEmpty = false →
        p ∉ (groupPass powers).ungrouped ∧
        (∃ ll, (p.parent_item.getD "", ll) ∈ (groupPass powers).grouped ∧ ll.count p = 1) ∧
        ∀ k ll, (k, ll) ∈ (groupPass powers).grouped → p ∈ ll →
          k = p.parent_item.getD "")) := by
  constructor
  · intro parent p hpar hch
    obtain ⟨_, hts⟩ := powerChildren_mem hch
    obtain ⟨i, hid⟩ := Option.isSome_iff_exists.mp hts
    have href : i ∈ referencedIds powers := mem_referencedIds hpar hch hid
    have hskip : groupSkip (referencedIds powers) p = true := by
      unfold groupSkip
      rw [hid]
      exact decide_eq_true href
    constructor
    · rw [groupPass_ungrouped]
      unfold ungroupedSel
      intro hmem
      have hpred := (List.mem_filter.mp hmem).2
      rw [hskip] at hpred
      simp at hpred
    · intro k ll hent hmem
      rw [groupPass_entry_eq hent] at hmem
      unfold groupSel at hmem
      have hpred := (List.mem_filter.mp hmem).2
      rw [hskip] at hpred
      simp at hpred
  · intro hnd p hp hnot
    have hskip : groupSkip (referencedIds powers) p = false := by
      cases hsk : groupSkip (referencedIds powers) p with
      | false => rfl
      | true =>
        exfalso
        unfold groupSkip at hsk
        cases hid : truthyId p with
        | none => rw [hid] at hsk; exact Bool.noConfusion hsk
        | some i =>
          rw [hid] at hsk
          have href : i ∈ referencedIds powers := of_decide_eq_true hsk
          unfold referencedIds at href
          obtain ⟨parent, hpar, hq⟩ := List.mem_flatMap.mp href
          obtain ⟨q, hqch, hqid⟩ := List.mem_filterMap.mp hq
          have hqp : q = p := by
            have hqin : q ∈ powers := (powerChildren_mem hqch).1
            have e1 := truthyId_eq_power_id hqid
            have e2 := truthyId_eq_power_id hid
            exact List.inj_on_of_nodup_map hnd hqin hp (by rw [e1, e2])
          exact hnot parent hpar (hqp ▸ hqch)
    have hndp : powers.Nodup := List.Nodup.of_map _ hnd
    constructor
    · intro htrim
      constructor
      · rw [groupPass_ungrouped]
        unfold ungroupedSel
        rw [List.count_filter (by simp [hskip, htrim])]
        exact List.count_eq_one_of_mem hndp hp
      · intro k ll hent hmem
        rw [groupPass_entry_eq hent] at hmem
        unfold groupSel at hmem
        have hpred := (List.mem_filter.mp hmem).2
        rw [htrim] at hpred
        simp at hpred
    · intro htrim
      refine ⟨?_, ?_, ?_⟩
      · rw [groupPass_ungrouped]
        unfold ungroupedSel
        intro hmem
        have hpred := (List.mem_filter.mp hmem).2
        rw [htrim] at hpred
        simp at hpred
      · have hpm : p ∈ groupSel (referencedIds powers) powers (p.parent_item.getD "") := by
          unfold groupSel
          rw [List.mem_filter]
          exact ⟨hp, by simp [hskip, htrim]⟩
        have hne := List.ne_nil_of_mem hpm
        have hl := groupPass_lookup powers (p.parent_item.getD "")
        rw [if_neg hne] at hl
        unfold groupLookup at hl
        cases hf : (groupPass powers).grouped.find?
            (fun kv => decide (kv.1 = p.parent_item.getD "")) with
        | none => rw [hf] at hl; exact Option.noConfusion hl
        | some kv =>
          rw [hf] at hl
          have hksnd : kv.2 = groupSel (referencedIds powers) powers (p.parent_item.getD "") := by
            simpa using hl
          have hkfst : kv.1 = p.parent_item.getD "" := by
            simpa using List.find?_some hf
          refine ⟨kv.2, ?_, ?_⟩
          · have hin := List.mem_of_find?_eq_some hf
            have : (p.parent_item.getD "", kv.2) = kv := by
              rw [← hkfst]
            rw [this]
            exact hin
          · rw [hksnd]
            unfold groupSel
            rw [List.count_filter (by simp [hskip, htrim])]
            exact List.count_eq_one_of_mem hndp hp
      · intro k ll hent hmem
        rw [groupPass_entry_eq hent] at hmem
        unfold groupSel at hmem
        have hpred := (List.mem_filter.mp hmem).2
        simp only [Bool.and_eq_true, decide_eq_true_eq] at hpred
        exact hpred.2.symm

/-- Witness for C9: in the diamond list the embedded dmdB is excluded
from the ungrouped roots, the unreferenced apex dmdA appears exactly once
among the ungrouped roots, and on a singleton list the power keyed "G"
lands exactly once in its named group. -/
theorem c9_root_partition_witness :
    dmdB ∈ powerChildren dmdPowers dmdA ∧
    dmdB ∉ (groupPass dmdPowers).ungrouped ∧
    (dmdPowers.map Power.power_id).Nodup ∧
    (groupPass dmdPowers).ungrouped.count dmdA = 1 ∧
    (∃ ll, (grpPower.parent_item.getD "", ll) ∈ (groupPass [grpPower]).grouped ∧
      ll.count grpPower = 1) :=
  ⟨by decide,
   ((c9_root_partition dmdPowers).1 dmdA dmdB (by decide) (by decide)).1,
   by decide,
   (((c9_root_partition dmdPowers).2 (by decide) dmdA (by decide) (by decide)).1 (by decide)).1,
   (((c9_root_partition [grpPower]).2 (by decide) grpPower (by decide) (by decide)).2
      (by decide)).2.1⟩
